import Mathlib

/-!
# OpenTRV `Radio.h`: preamble builder and radio configuration constants

A shallow embedding of `Arduino/V0p2_Main/Radio.h`.

Memory model.  A buffer is a `List Nat` of byte cells and a `uint8_t *` into it
is a `Nat` offset from the start of the buffer.  Every store is bounds-checked:
a store outside the buffer (undefined behaviour in C) makes the whole
computation return `none`.  Stored values are reduced `% 256`, as `memset`
converts its fill value to `unsigned char`.  Pointer arithmetic is on offsets
that stay within one object (or one past its end), so it does not wrap and is
plain addition on `Nat`.
-/

namespace Radio

/-! ## Constants (`Radio.h` lines 65-69, 84-85) -/

/-- Preamble byte for RFM22/23 reception: `#define RFM22_PREAMBLE_BYTE 0xaa`. -/
def RFM22_PREAMBLE_BYTE : Nat := 0xaa

/-- Minimum number of preamble bytes for reception: `#define RFM22_PREAMBLE_MIN_BYTES 4`. -/
def RFM22_PREAMBLE_MIN_BYTES : Nat := 4

/-- Recommended number of preamble bytes: `#define RFM22_PREAMBLE_BYTES 5`. -/
def RFM22_PREAMBLE_BYTES : Nat := 5

/-- Sync-word trailing byte: `#define RFM22_SYNC_BYTE 0xcc`. -/
def RFM22_SYNC_BYTE : Nat := 0xcc

/-- Minimum number of sync bytes: `#define RFM22_SYNC_MIN_BYTES 3`. -/
def RFM22_SYNC_MIN_BYTES : Nat := 3

/-- Offset of the stats message in the buffer:
`#define STATS_MSG_START_OFFSET (RFM22_PREAMBLE_BYTES + RFM22_SYNC_MIN_BYTES)`. -/
def STATS_MSG_START_OFFSET : Nat := RFM22_PREAMBLE_BYTES + RFM22_SYNC_MIN_BYTES

/-- Maximum stats message length:
`#define STATS_MSG_MAX_LEN (64 - STATS_MSG_START_OFFSET)`.
The C expression is evaluated in `int`; it is kept in `Int` here so that the
subtraction is the C one and not a truncated one. -/
def STATS_MSG_MAX_LEN : Int := 64 - (STATS_MSG_START_OFFSET : Int)

/-! ## SIM900 configuration (`Radio.h` lines 45-61, under `ENABLE_RADIO_SIM900`)

EEPROM addresses are `const void *` values; they are modelled by their numeric
address. -/

/-- Modelled from the spec: the record type `OTSIM900Link::OTSIM900LinkConfig_t`
is declared in the OTSIM900Link library header, which is not part of `Radio.h`.
The spec describes it as a fixed-layout record of an enabled flag followed by
four addresses into non-volatile storage: PIN, APN, UDP address, UDP port. -/
structure OTSIM900LinkConfig_t where
  enabled : Bool
  PIN : Nat
  APN : Nat
  UDP_Address : Nat
  UDP_Port : Nat
  deriving DecidableEq

/-- Address of the PIN string: `static const void *SIM900_PIN = (void *)0x0300;`. -/
def SIM900_PIN : Nat := 0x0300

/-- Address of the APN string: `static const void *SIM900_APN = (void *)0x0305;`. -/
def SIM900_APN : Nat := 0x0305

/-- Address of the UDP address string:
`static const void *SIM900_UDP_ADDR = (void *)0x031B;`. -/
def SIM900_UDP_ADDR : Nat := 0x031B

/-- Address of the UDP port string:
`static const void *SIM900_UDP_PORT = (void *)0x0329;`. -/
def SIM900_UDP_PORT : Nat := 0x0329

/-- The aggregate
`SIM900Config { true, SIM900_PIN, SIM900_APN, SIM900_UDP_ADDR, SIM900_UDP_PORT }`;
the initialisers fill the fields in declaration order. -/
def SIM900Config : OTSIM900LinkConfig_t :=
  ⟨true, SIM900_PIN, SIM900_APN, SIM900_UDP_ADDR, SIM900_UDP_PORT⟩

/-! ## Bounds-checked stores -/

/-- Store of one byte `*(mem + i) = (unsigned char) v`; `none` when `i` is not
inside the buffer. -/
def storeByte (mem : List Nat) (i : Nat) (v : Nat) : Option (List Nat) :=
  if i < mem.length then some (mem.set i (v % 256)) else none

/-- The C library `memset(s, c, n)`: stores `(unsigned char) c` into each of the
`n` cells starting at offset `s`, lowest address first; `none` as soon as one of
the stores is out of bounds. -/
def memset (mem : List Nat) (s : Nat) (c : Nat) : Nat → Option (List Nat)
  | 0 => some mem
  | n + 1 =>
    match storeByte mem s c with
    | none => none
    | some mem1 => memset mem1 (s + 1) c n

/-- The function `static inline uint8_t *RFM22RXPreambleAdd(uint8_t *buf)`
(`Radio.h` lines 90-100), with the memory made explicit: takes the buffer and
the offset `buf`, returns the buffer after the two `memset` calls together with
the adjusted pointer, or `none` when a store was out of bounds. -/
def RFM22RXPreambleAdd (mem : List Nat) (buf : Nat) : Option (List Nat × Nat) :=
  -- memset(buf, RFM22_PREAMBLE_BYTE, RFM22_PREAMBLE_BYTES);
  match memset mem buf RFM22_PREAMBLE_BYTE RFM22_PREAMBLE_BYTES with
  | none => none
  | some mem1 =>
    -- buf += RFM22_PREAMBLE_BYTES;
    let buf1 := buf + RFM22_PREAMBLE_BYTES
    -- memset(buf, RFM22_SYNC_BYTE, RFM22_SYNC_MIN_BYTES);
    match memset mem1 buf1 RFM22_SYNC_BYTE RFM22_SYNC_MIN_BYTES with
    | none => none
    | some mem2 =>
      -- buf += RFM22_SYNC_MIN_BYTES;
      let buf2 := buf1 + RFM22_SYNC_MIN_BYTES
      -- return(buf);
      some (mem2, buf2)

/-! ## Generic facts about `memset` -/

theorem storeByte_eq_some {mem : List Nat} {i : Nat} (v : Nat) (h : i < mem.length) :
    storeByte mem i v = some (mem.set i (v % 256)) := by
  simp [storeByte, h]

theorem storeByte_eq_none {mem : List Nat} {i : Nat} (v : Nat) (h : mem.length ≤ i) :
    storeByte mem i v = none := by
  simp [storeByte, Nat.not_lt.mpr h]

/-- Within bounds `memset` succeeds, keeps the length, sets the `n` cells from
`s` on to the fill byte and leaves every other cell as it was. -/
theorem memset_spec (c : Nat) (n : Nat) : ∀ (mem : List Nat) (s : Nat),
    s + n ≤ mem.length →
    ∃ out, memset mem s c n = some out ∧ out.length = mem.length ∧
      ∀ i, out[i]? = if s ≤ i ∧ i < s + n then some (c % 256) else mem[i]? := by
  induction n with
  | zero =>
    intro mem s _
    refine ⟨mem, rfl, rfl, ?_⟩
    intro i
    have : ¬ (s ≤ i ∧ i < s) := by omega
    simp [this]
  | succ n ih =>
    intro mem s h
    have hs : s < mem.length := by omega
    have hlen : s + 1 + n ≤ (mem.set s (c % 256)).length := by
      simp only [List.length_set]; omega
    obtain ⟨out, hout, hl, hget⟩ := ih (mem.set s (c % 256)) (s + 1) hlen
    refine ⟨out, ?_, ?_, ?_⟩
    · simp only [memset, storeByte_eq_some c hs, hout]
    · simpa using hl
    · intro i
      rw [hget i, List.getElem?_set]
      by_cases h1 : s + 1 ≤ i ∧ i < s + 1 + n
      · have h2 : s ≤ i ∧ i < s + (n + 1) := by omega
        simp [h1, h2]
      · by_cases h3 : s = i
        · subst h3
          have h2 : s ≤ s ∧ s < s + (n + 1) := by omega
          simp [h1, h2, hs]
        · have h2 : ¬ (s ≤ i ∧ i < s + (n + 1)) := by omega
          simp [h1, h2, h3]

/-- Out of bounds `memset` fails: a non-empty range that does not fit in the
buffer has a store that is rejected. -/
theorem memset_none (c : Nat) (n : Nat) : ∀ (mem : List Nat) (s : Nat),
    mem.length < s + (n + 1) → memset mem s c (n + 1) = none := by
  induction n with
  | zero =>
    intro mem s h
    simp only [memset, storeByte_eq_none c (by omega : mem.length ≤ s)]
  | succ n ih =>
    intro mem s h
    by_cases hs : s < mem.length
    · have hlen : (mem.set s (c % 256)).length < s + 1 + (n + 1) := by
        simp only [List.length_set]; omega
      rw [memset]
      simp only [storeByte_eq_some c hs, ih _ _ hlen]
    · rw [memset]
      simp only [storeByte_eq_none c (Nat.le_of_not_lt hs)]

/-! ## The preamble builder, cell by cell -/

/-- With room for the eight bytes, the builder succeeds, returns `off + 8`,
keeps the length, and the cell at `i` holds `0xaa` for `off ≤ i < off + 5`,
`0xcc` for `off + 5 ≤ i < off + 8`, and its former content elsewhere. -/
theorem RFM22RXPreambleAdd_spec (mem : List Nat) (off : Nat)
    (h : off + 8 ≤ mem.length) :
    ∃ out, RFM22RXPreambleAdd mem off = some (out, off + 8) ∧
      out.length = mem.length ∧
      ∀ i, out[i]? =
        if off ≤ i ∧ i < off + 5 then some 0xaa
        else if off + 5 ≤ i ∧ i < off + 8 then some 0xcc
        else mem[i]? := by
  obtain ⟨m1, hm1, hl1, hg1⟩ :=
    memset_spec RFM22_PREAMBLE_BYTE RFM22_PREAMBLE_BYTES mem off
      (by simp only [RFM22_PREAMBLE_BYTES]; omega)
  obtain ⟨m2, hm2, hl2, hg2⟩ :=
    memset_spec RFM22_SYNC_BYTE RFM22_SYNC_MIN_BYTES m1 (off + RFM22_PREAMBLE_BYTES)
      (by simp only [RFM22_PREAMBLE_BYTES, RFM22_SYNC_MIN_BYTES, hl1]; omega)
  refine ⟨m2, ?_, by rw [hl2, hl1], ?_⟩
  · simp only [RFM22RXPreambleAdd, hm1, hm2]
    rfl
  · intro i
    rw [hg2 i, hg1 i]
    simp only [RFM22_PREAMBLE_BYTES, RFM22_SYNC_MIN_BYTES, RFM22_PREAMBLE_BYTE,
      RFM22_SYNC_BYTE]
    by_cases ha : off ≤ i ∧ i < off + 5
    · have hb : ¬ (off + 5 ≤ i ∧ i < off + 5 + 3) := by omega
      simp [ha, hb]
    · by_cases hc : off + 5 ≤ i ∧ i < off + 8
      · have hb : off + 5 ≤ i ∧ i < off + 5 + 3 := by omega
        simp [ha, hb, hc]
      · have hb : ¬ (off + 5 ≤ i ∧ i < off + 5 + 3) := by omega
        simp [ha, hb, hc]

/-- Without room for the eight bytes the bounds check fires: the error branch
of the model is reachable, exactly when the capacity contract is broken. -/
theorem RFM22RXPreambleAdd_none (mem : List Nat) (off : Nat)
    (h : mem.length < off + 8) : RFM22RXPreambleAdd mem off = none := by
  by_cases h5 : off + 5 ≤ mem.length
  · obtain ⟨m1, hm1, hl1, _⟩ :=
      memset_spec RFM22_PREAMBLE_BYTE RFM22_PREAMBLE_BYTES mem off
        (by simp only [RFM22_PREAMBLE_BYTES]; omega)
    have hn : memset m1 (off + RFM22_PREAMBLE_BYTES) RFM22_SYNC_BYTE
        RFM22_SYNC_MIN_BYTES = none :=
      memset_none RFM22_SYNC_BYTE 2 m1 (off + 5) (by rw [hl1]; omega)
    simp only [RFM22RXPreambleAdd, hm1, hn]
  · have hn : memset mem off RFM22_PREAMBLE_BYTE RFM22_PREAMBLE_BYTES = none :=
      memset_none RFM22_PREAMBLE_BYTE 4 mem off (by omega)
    simp only [RFM22RXPreambleAdd, hn]

/-- The builder succeeds exactly under its capacity contract. -/
theorem RFM22RXPreambleAdd_isSome_iff (mem : List Nat) (off : Nat) :
    (RFM22RXPreambleAdd mem off).isSome = true ↔ off + 8 ≤ mem.length := by
  constructor
  · intro hs
    by_contra hc
    rw [RFM22RXPreambleAdd_none mem off (by omega)] at hs
    simp at hs
  · intro h
    obtain ⟨out, ho, _, _⟩ := RFM22RXPreambleAdd_spec mem off h
    simp [ho]

/-- The eight cells from `off` on, read as a list, after a successful call. -/
theorem RFM22RXPreambleAdd_segment (mem : List Nat) (off : Nat)
    (h : off + 8 ≤ mem.length) :
    ∃ out, RFM22RXPreambleAdd mem off = some (out, off + 8) ∧
      (out.drop off).take 8 = [0xaa, 0xaa, 0xaa, 0xaa, 0xaa, 0xcc, 0xcc, 0xcc] := by
  obtain ⟨out, ho, _, hg⟩ := RFM22RXPreambleAdd_spec mem off h
  refine ⟨out, ho, ?_⟩
  apply List.ext_getElem?
  intro i
  by_cases hi : i < 8
  · rw [List.getElem?_take_of_lt hi, List.getElem?_drop, hg]
    interval_cases i <;> simp
  · have h8 : 8 ≤ i := Nat.le_of_not_lt hi
    rw [List.getElem?_take_eq_none h8]
    symm
    apply List.getElem?_eq_none
    simpa using h8

/-! ## Claims -/

/-- C1: for every buffer and every offset `off` with `off + 8 ≤` the buffer
length, `RFM22RXPreambleAdd` at `off` succeeds and returns the offset `off + 8`,
and in the resulting buffer the five cells `off .. off+4` all hold `0xAA` and
the three cells `off+5 .. off+7` all hold `0xCC`. -/
theorem RFM22RXPreambleAdd_writes_preamble_sync (mem : List Nat) (off : Nat)
    (h : off + 8 ≤ mem.length) :
    ∃ out, RFM22RXPreambleAdd mem off = some (out, off + 8) ∧
      (∀ i, i < 5 → out[off + i]? = some 0xAA) ∧
      (∀ i, i < 3 → out[off + 5 + i]? = some 0xCC) := by
  obtain ⟨out, ho, _, hg⟩ := RFM22RXPreambleAdd_spec mem off h
  refine ⟨out, ho, ?_, ?_⟩
  · intro i hi
    have ha : off ≤ off + i ∧ off + i < off + 5 := by omega
    rw [hg, if_pos ha]
  · intro i hi
    have ha : ¬ (off ≤ off + 5 + i ∧ off + 5 + i < off + 5) := by omega
    have hb : off + 5 ≤ off + 5 + i ∧ off + 5 + i < off + 8 := by omega
    rw [hg, if_neg ha, if_pos hb]

/-- C1, the scenario of the spec: on a 64-byte all-zero buffer at offset 0 the
builder returns 8 and the buffer is five `0xAA`, three `0xCC` and 56 zero
bytes. -/
theorem RFM22RXPreambleAdd_writes_preamble_sync_witness :
    0 + 8 ≤ (List.replicate 64 0).length ∧
    (∃ out, RFM22RXPreambleAdd (List.replicate 64 0) 0 = some (out, 0 + 8) ∧
      (∀ i, i < 5 → out[0 + i]? = some 0xAA) ∧
      (∀ i, i < 3 → out[0 + 5 + i]? = some 0xCC)) ∧
    RFM22RXPreambleAdd (List.replicate 64 0) 0 =
      some (List.replicate 5 0xAA ++ List.replicate 3 0xCC ++ List.replicate 56 0, 8) :=
  ⟨by decide, RFM22RXPreambleAdd_writes_preamble_sync (List.replicate 64 0) 0 (by decide),
    by decide⟩

/-- C2: for every buffer and every offset `off` with `off + 8 ≤` the buffer
length, `RFM22RXPreambleAdd` at `off` keeps the buffer length and leaves every
cell at an index `i < off` or `i ≥ off + 8` as it was; in particular the bytes
before `off` and the payload from the returned offset on are intact. -/
theorem RFM22RXPreambleAdd_frame (mem : List Nat) (off : Nat)
    (h : off + 8 ≤ mem.length) :
    ∃ out ret, RFM22RXPreambleAdd mem off = some (out, ret) ∧
      out.length = mem.length ∧
      (∀ i, i < off ∨ off + 8 ≤ i → out[i]? = mem[i]?) ∧
      out.take off = mem.take off ∧
      out.drop ret = mem.drop ret := by
  obtain ⟨out, ho, hl, hg⟩ := RFM22RXPreambleAdd_spec mem off h
  have hout : ∀ i, i < off ∨ off + 8 ≤ i → out[i]? = mem[i]? := by
    intro i hi
    have ha : ¬ (off ≤ i ∧ i < off + 5) := by omega
    have hb : ¬ (off + 5 ≤ i ∧ i < off + 8) := by omega
    rw [hg, if_neg ha, if_neg hb]
  refine ⟨out, off + 8, ho, hl, hout, ?_, ?_⟩
  · apply List.ext_getElem?
    intro i
    by_cases hi : i < off
    · rw [List.getElem?_take_of_lt hi, List.getElem?_take_of_lt hi]
      exact hout i (Or.inl hi)
    · rw [List.getElem?_take_eq_none (Nat.le_of_not_lt hi),
        List.getElem?_take_eq_none (Nat.le_of_not_lt hi)]
  · apply List.ext_getElem?
    intro i
    rw [List.getElem?_drop, List.getElem?_drop]
    exact hout (off + 8 + i) (Or.inr (by omega))

/-- C2, the scenario of the spec: on a 64-byte all-zero buffer at offset 0 the
cells 8..63 are still zero after the call. -/
theorem RFM22RXPreambleAdd_frame_witness :
    0 + 8 ≤ (List.replicate 64 0).length ∧
    (∃ out ret, RFM22RXPreambleAdd (List.replicate 64 0) 0 = some (out, ret) ∧
      out.length = (List.replicate 64 0).length ∧
      (∀ i, i < 0 ∨ 0 + 8 ≤ i → out[i]? = (List.replicate 64 0)[i]?) ∧
      out.take 0 = (List.replicate 64 0).take 0 ∧
      out.drop ret = (List.replicate 64 0).drop ret) ∧
    (RFM22RXPreambleAdd (List.replicate 64 0) 0).map (fun r => r.1.drop 8) =
      some (List.replicate 56 0) :=
  ⟨by decide, RFM22RXPreambleAdd_frame (List.replicate 64 0) 0 (by decide), by decide⟩

/-- C3: the derived constants are exact: `STATS_MSG_START_OFFSET` is
`RFM22_PREAMBLE_BYTES + RFM22_SYNC_MIN_BYTES = 5 + 3 = 8`, `STATS_MSG_MAX_LEN` is
`64 - STATS_MSG_START_OFFSET = 56`, their sum is the frame capacity 64, and so a
payload length of 56 is within the maximum while 57 exceeds it. -/
theorem stats_msg_constants :
    STATS_MSG_START_OFFSET = RFM22_PREAMBLE_BYTES + RFM22_SYNC_MIN_BYTES ∧
    RFM22_PREAMBLE_BYTES = 5 ∧ RFM22_SYNC_MIN_BYTES = 3 ∧
    STATS_MSG_START_OFFSET = 8 ∧
    STATS_MSG_MAX_LEN = 64 - (STATS_MSG_START_OFFSET : Int) ∧
    STATS_MSG_MAX_LEN = 56 ∧
    (STATS_MSG_START_OFFSET : Int) + STATS_MSG_MAX_LEN = 64 ∧
    (56 : Int) ≤ STATS_MSG_MAX_LEN ∧ ¬ ((57 : Int) ≤ STATS_MSG_MAX_LEN) := by
  decide

/-- C4: idempotence.  For every buffer and every offset `off` with
`off + 8 ≤` the buffer length, a second call of `RFM22RXPreambleAdd` at `off` on
the buffer left by the first call gives the same buffer, byte for byte, and the
same returned offset as the first call. -/
theorem RFM22RXPreambleAdd_idempotent (mem : List Nat) (off : Nat)
    (h : off + 8 ≤ mem.length) :
    ∃ out ret, RFM22RXPreambleAdd mem off = some (out, ret) ∧
      RFM22RXPreambleAdd out off = some (out, ret) := by
  obtain ⟨out, ho, hl, hg⟩ := RFM22RXPreambleAdd_spec mem off h
  obtain ⟨out2, ho2, _, hg2⟩ := RFM22RXPreambleAdd_spec out off (by rw [hl]; exact h)
  have heq : out2 = out := by
    apply List.ext_getElem?
    intro i
    rw [hg2 i, hg i]
    by_cases ha : off ≤ i ∧ i < off + 5
    · simp only [if_pos ha]
    · simp only [if_neg ha]
      by_cases hb : off + 5 ≤ i ∧ i < off + 8
      · simp only [if_pos hb]
      · simp only [if_neg hb]
  refine ⟨out, off + 8, ho, ?_⟩
  rw [ho2, heq]

/-- C4 at a concrete input: a 12-byte buffer of payload-like bytes, built twice
at offset 2. -/
theorem RFM22RXPreambleAdd_idempotent_witness :
    2 + 8 ≤ [1, 2, 3, 4, 5, 6, 7, 8, 9, 10, 11, 12].length ∧
    ∃ out ret,
      RFM22RXPreambleAdd [1, 2, 3, 4, 5, 6, 7, 8, 9, 10, 11, 12] 2 = some (out, ret) ∧
      RFM22RXPreambleAdd out 2 = some (out, ret) :=
  ⟨by decide,
    RFM22RXPreambleAdd_idempotent [1, 2, 3, 4, 5, 6, 7, 8, 9, 10, 11, 12] 2 (by decide)⟩

/-- C5: the builder has no failure path under its capacity contract.  In the
bounds-checked model, for every buffer and every offset `off` with
`off + 8 ≤` the buffer length, both `memset` calls (five stores, then three)
complete without an out-of-bounds store, the call does not take the error
branch, and the returned offset is at most the buffer length. -/
theorem RFM22RXPreambleAdd_no_failure (mem : List Nat) (off : Nat)
    (h : off + 8 ≤ mem.length) :
    ∃ mem1 mem2 ret,
      memset mem off RFM22_PREAMBLE_BYTE RFM22_PREAMBLE_BYTES = some mem1 ∧
      memset mem1 (off + RFM22_PREAMBLE_BYTES) RFM22_SYNC_BYTE RFM22_SYNC_MIN_BYTES
        = some mem2 ∧
      RFM22RXPreambleAdd mem off = some (mem2, ret) ∧
      RFM22RXPreambleAdd mem off ≠ none ∧
      ret ≤ mem.length ∧ ret ≤ mem2.length := by
  obtain ⟨m1, hm1, hl1, _⟩ :=
    memset_spec RFM22_PREAMBLE_BYTE RFM22_PREAMBLE_BYTES mem off
      (by simp only [RFM22_PREAMBLE_BYTES]; omega)
  obtain ⟨m2, hm2, hl2, _⟩ :=
    memset_spec RFM22_SYNC_BYTE RFM22_SYNC_MIN_BYTES m1 (off + RFM22_PREAMBLE_BYTES)
      (by simp only [RFM22_PREAMBLE_BYTES, RFM22_SYNC_MIN_BYTES, hl1]; omega)
  have hr : RFM22RXPreambleAdd mem off = some (m2, off + 8) := by
    simp only [RFM22RXPreambleAdd, hm1, hm2]
    rfl
  refine ⟨m1, m2, off + 8, hm1, hm2, hr, ?_, h, ?_⟩
  · rw [hr]; exact Option.some_ne_none _
  · rw [hl2, hl1]; exact h

/-- C5 at the tightest input: an 8-byte buffer at offset 0, where the returned
offset is the buffer length itself. -/
theorem RFM22RXPreambleAdd_no_failure_witness :
    0 + 8 ≤ [0, 0, 0, 0, 0, 0, 0, 0].length ∧
    ∃ mem1 mem2 ret,
      memset [0, 0, 0, 0, 0, 0, 0, 0] 0 RFM22_PREAMBLE_BYTE RFM22_PREAMBLE_BYTES
        = some mem1 ∧
      memset mem1 (0 + RFM22_PREAMBLE_BYTES) RFM22_SYNC_BYTE RFM22_SYNC_MIN_BYTES
        = some mem2 ∧
      RFM22RXPreambleAdd [0, 0, 0, 0, 0, 0, 0, 0] 0 = some (mem2, ret) ∧
      RFM22RXPreambleAdd [0, 0, 0, 0, 0, 0, 0, 0] 0 ≠ none ∧
      ret ≤ [0, 0, 0, 0, 0, 0, 0, 0].length ∧ ret ≤ mem2.length :=
  ⟨by decide, RFM22RXPreambleAdd_no_failure [0, 0, 0, 0, 0, 0, 0, 0] 0 (by decide)⟩

/-- C6: the offset returned by `RFM22RXPreambleAdd` is the input offset plus
`STATS_MSG_START_OFFSET`; the cell just below it holds the last sync byte
written and no cell from it on is written; so applied at offset 0 the builder
returns `STATS_MSG_START_OFFSET`, the offset at which the stats message is to be
placed for `RFM22RawStatsTXFFTerminated`. -/
theorem RFM22RXPreambleAdd_returns_start_offset (mem : List Nat) (off : Nat)
    (h : off + 8 ≤ mem.length) :
    ∃ out ret, RFM22RXPreambleAdd mem off = some (out, ret) ∧
      ret = off + STATS_MSG_START_OFFSET ∧
      (off = 0 → ret = STATS_MSG_START_OFFSET) ∧
      out[ret - 1]? = some RFM22_SYNC_BYTE ∧
      (∀ i, ret ≤ i → out[i]? = mem[i]?) := by
  obtain ⟨out, ho, _, hg⟩ := RFM22RXPreambleAdd_spec mem off h
  refine ⟨out, off + 8, ho, rfl, ?_, ?_, ?_⟩
  · intro h0
    rw [h0]; rfl
  · have ha : ¬ (off ≤ off + 8 - 1 ∧ off + 8 - 1 < off + 5) := by omega
    have hb : off + 5 ≤ off + 8 - 1 ∧ off + 8 - 1 < off + 8 := by omega
    rw [hg, if_neg ha, if_pos hb]; rfl
  · intro i hi
    have ha : ¬ (off ≤ i ∧ i < off + 5) := by omega
    have hb : ¬ (off + 5 ≤ i ∧ i < off + 8) := by omega
    rw [hg, if_neg ha, if_neg hb]

/-- C6 at the start of a 64-byte buffer: the returned offset is
`STATS_MSG_START_OFFSET`. -/
theorem RFM22RXPreambleAdd_returns_start_offset_witness :
    0 + 8 ≤ (List.replicate 64 0).length ∧
    (∃ out ret, RFM22RXPreambleAdd (List.replicate 64 0) 0 = some (out, ret) ∧
      ret = 0 + STATS_MSG_START_OFFSET ∧
      (0 = 0 → ret = STATS_MSG_START_OFFSET) ∧
      out[ret - 1]? = some RFM22_SYNC_BYTE ∧
      (∀ i, ret ≤ i → out[i]? = (List.replicate 64 0)[i]?)) ∧
    (RFM22RXPreambleAdd (List.replicate 64 0) 0).map Prod.snd
      = some STATS_MSG_START_OFFSET :=
  ⟨by decide,
    RFM22RXPreambleAdd_returns_start_offset (List.replicate 64 0) 0 (by decide),
    by decide⟩

/-- C7: the record `SIM900Config` has its first field, the enabled flag, set
to `true`, and its PIN, APN, UDP-address and UDP-port fields set, in that
order, to the storage addresses `0x0300`, `0x0305`, `0x031B` and `0x0329`; the
first string starts at `0x300`, the lowest of the four addresses. -/
theorem SIM900Config_fields :
    SIM900Config.enabled = true ∧
    SIM900Config.PIN = 0x0300 ∧
    SIM900Config.APN = 0x0305 ∧
    SIM900Config.UDP_Address = 0x031B ∧
    SIM900Config.UDP_Port = 0x0329 ∧
    SIM900Config = ⟨true, 0x0300, 0x0305, 0x031B, 0x0329⟩ ∧
    (∀ a ∈ [SIM900Config.PIN, SIM900Config.APN, SIM900Config.UDP_Address,
      SIM900Config.UDP_Port], 0x300 ≤ a) := by
  decide

/-- C8: the prefix written by `RFM22RXPreambleAdd` meets the receiver minimums:
the eight cells from `off` are `RFM22_PREAMBLE_BYTES = 5` preamble bytes, which
is at least `RFM22_PREAMBLE_MIN_BYTES = 4`, followed by exactly
`RFM22_SYNC_MIN_BYTES = 3` sync bytes, and the last four bytes written are
`0xAA, 0xCC, 0xCC, 0xCC`. -/
theorem RFM22RXPreambleAdd_meets_minimums (mem : List Nat) (off : Nat)
    (h : off + 8 ≤ mem.length) :
    ∃ out ret, RFM22RXPreambleAdd mem off = some (out, ret) ∧
      (out.drop off).take (RFM22_PREAMBLE_BYTES + RFM22_SYNC_MIN_BYTES) =
        List.replicate RFM22_PREAMBLE_BYTES RFM22_PREAMBLE_BYTE ++
          List.replicate RFM22_SYNC_MIN_BYTES RFM22_SYNC_BYTE ∧
      RFM22_PREAMBLE_BYTE = 0xAA ∧ RFM22_SYNC_BYTE = 0xCC ∧
      RFM22_PREAMBLE_BYTES = 5 ∧ RFM22_PREAMBLE_MIN_BYTES = 4 ∧
      RFM22_PREAMBLE_MIN_BYTES ≤ RFM22_PREAMBLE_BYTES ∧
      RFM22_SYNC_MIN_BYTES = 3 ∧
      (out.drop (ret - 4)).take 4 = [0xAA, 0xCC, 0xCC, 0xCC] := by
  obtain ⟨out, ho, hseg⟩ := RFM22RXPreambleAdd_segment mem off h
  refine ⟨out, off + 8, ho, hseg, rfl, rfl, rfl, rfl, by decide, rfl, ?_⟩
  have hd : out.drop (off + 8 - 4) = (out.drop off).drop 4 := by
    rw [List.drop_drop]
    exact congrArg (fun k => List.drop k out) (by omega)
  rw [hd, List.take_drop]
  show List.drop 4 (List.take 8 (List.drop off out)) = _
  rw [hseg]
  rfl

/-- C8 on a 64-byte all-zero buffer at offset 0. -/
theorem RFM22RXPreambleAdd_meets_minimums_witness :
    0 + 8 ≤ (List.replicate 64 0).length ∧
    ∃ out ret, RFM22RXPreambleAdd (List.replicate 64 0) 0 = some (out, ret) ∧
      (out.drop 0).take (RFM22_PREAMBLE_BYTES + RFM22_SYNC_MIN_BYTES) =
        List.replicate RFM22_PREAMBLE_BYTES RFM22_PREAMBLE_BYTE ++
          List.replicate RFM22_SYNC_MIN_BYTES RFM22_SYNC_BYTE ∧
      RFM22_PREAMBLE_BYTE = 0xAA ∧ RFM22_SYNC_BYTE = 0xCC ∧
      RFM22_PREAMBLE_BYTES = 5 ∧ RFM22_PREAMBLE_MIN_BYTES = 4 ∧
      RFM22_PREAMBLE_MIN_BYTES ≤ RFM22_PREAMBLE_BYTES ∧
      RFM22_SYNC_MIN_BYTES = 3 ∧
      (out.drop (ret - 4)).take 4 = [0xAA, 0xCC, 0xCC, 0xCC] :=
  ⟨by decide, RFM22RXPreambleAdd_meets_minimums (List.replicate 64 0) 0 (by decide)⟩

/-- C9: the output of `RFM22RXPreambleAdd` does not depend on what the eight
prefix cells held before the call: two buffers of equal length that agree at
every index outside `off .. off+7` (with `off + 8 ≤` the length) give the same
result buffer and the same returned offset, and that offset is `off + 8`
whatever the buffers hold. -/
theorem RFM22RXPreambleAdd_region_independent (mem1 mem2 : List Nat) (off : Nat)
    (hlen : mem1.length = mem2.length) (h : off + 8 ≤ mem1.length)
    (hagree : ∀ i, i < off ∨ off + 8 ≤ i → mem1[i]? = mem2[i]?) :
    ∃ out, RFM22RXPreambleAdd mem1 off = some (out, off + 8) ∧
      RFM22RXPreambleAdd mem2 off = some (out, off + 8) := by
  obtain ⟨o1, ho1, _, hg1⟩ := RFM22RXPreambleAdd_spec mem1 off h
  obtain ⟨o2, ho2, _, hg2⟩ := RFM22RXPreambleAdd_spec mem2 off (by rw [← hlen]; exact h)
  have heq : o2 = o1 := by
    apply List.ext_getElem?
    intro i
    rw [hg2 i, hg1 i]
    by_cases ha : off ≤ i ∧ i < off + 5
    · simp only [if_pos ha]
    · simp only [if_neg ha]
      by_cases hb : off + 5 ≤ i ∧ i < off + 8
      · simp only [if_pos hb]
      · simp only [if_neg hb]
        exact (hagree i (by omega)).symm
  refine ⟨o1, ho1, ?_⟩
  rw [ho2, heq]

/-- C9 on two 10-byte buffers that differ only inside the prefix region
`1 .. 8`. -/
theorem RFM22RXPreambleAdd_region_independent_witness :
    [7, 0, 0, 0, 0, 0, 0, 0, 0, 9].length = [7, 1, 2, 3, 4, 5, 6, 7, 8, 9].length ∧
    1 + 8 ≤ [7, 0, 0, 0, 0, 0, 0, 0, 0, 9].length ∧
    ∃ out, RFM22RXPreambleAdd [7, 0, 0, 0, 0, 0, 0, 0, 0, 9] 1 = some (out, 1 + 8) ∧
      RFM22RXPreambleAdd [7, 1, 2, 3, 4, 5, 6, 7, 8, 9] 1 = some (out, 1 + 8) :=
  ⟨by decide, by decide,
    RFM22RXPreambleAdd_region_independent [7, 0, 0, 0, 0, 0, 0, 0, 0, 9]
      [7, 1, 2, 3, 4, 5, 6, 7, 8, 9] 1 (by decide) (by decide) (by
        intro i hi
        rcases hi with hi | hi
        · have h0 : i = 0 := by omega
          subst h0; rfl
        · by_cases h9 : i = 9
          · subst h9; rfl
          · rw [List.getElem?_eq_none (by simp; omega),
              List.getElem?_eq_none (by simp; omega)])⟩

/-- C10: the four SIM900 string addresses are strictly increasing in record
order, `0x0300 < 0x0305 < 0x031B < 0x0329`, hence pairwise distinct, and the
room from each of the first three to the next field is 5, 22 and 14 bytes. -/
theorem SIM900_addresses_increasing :
    SIM900Config.PIN < SIM900Config.APN ∧
    SIM900Config.APN < SIM900Config.UDP_Address ∧
    SIM900Config.UDP_Address < SIM900Config.UDP_Port ∧
    [SIM900_PIN, SIM900_APN, SIM900_UDP_ADDR, SIM900_UDP_PORT] =
      [0x0300, 0x0305, 0x031B, 0x0329] ∧
    [SIM900_PIN, SIM900_APN, SIM900_UDP_ADDR, SIM900_UDP_PORT].Nodup ∧
    SIM900_PIN + 5 = SIM900_APN ∧
    SIM900_APN + 22 = SIM900_UDP_ADDR ∧
    SIM900_UDP_ADDR + 14 = SIM900_UDP_PORT := by
  decide

end Radio
